import Mathlib

/-!
Verification development for the resource-access governance layer of the
semantic-scholar gateway: the SQLite-backed TTL cache service
(src/services/cache.ts), the token-bucket rate limiter
(src/services/rateLimit.ts), and the read-only query guard (src/neo4j.ts).

Each definition is a shallow embedding of the corresponding TypeScript
function.  Timestamps are modelled as natural numbers (milliseconds, as
produced by Date.now()).  JavaScript floating-point numbers appearing in the
rate limiter are modelled as rationals; the cache eviction arithmetic
(Math.floor(totalSize * 0.1 / ttl)) is modelled by exact natural division
totalSize / (10 * ttl), which agrees with the exact real value of the
expression.  Database effects are modelled by explicit state passing over a
list of rows; the possibility of a storage-level write failure is resolved by
a boolean parameter.
-/

namespace SemanticScholarMcp

/-! ### JavaScript string primitives

JavaScript string comparison (used by Object.keys(params).sort()) is
lexicographic on code units.  Lean strings hold scalar values; we compare by
the numeric code of each character, which agrees with the JavaScript order on
the basic multilingual plane.  These are defined structurally so that the
kernel can evaluate them.
-/

/-- Lexicographic less-or-equal on character lists, by numeric code. -/
def charListLe : List Char → List Char → Bool
  | [], _ => true
  | _ :: _, [] => false
  | a :: as, b :: bs =>
    if a.toNat < b.toNat then true
    else if b.toNat < a.toNat then false
    else charListLe as bs

/-- String order used by the JavaScript sort() call in generateKey. -/
def strLe (a b : String) : Bool := charListLe a.data b.data

/-- The propositional form of strLe, used as the sorting relation. -/
def StrLeR (a b : String) : Prop := strLe a b = true

instance : DecidableRel StrLeR := fun a b => by
  unfold StrLeR; infer_instance

theorem charListLe_total (as bs : List Char) :
    charListLe as bs = true ∨ charListLe bs as = true := by
  induction as generalizing bs with
  | nil => left; rfl
  | cons a as ih =>
    cases bs with
    | nil => right; rfl
    | cons b bs =>
      by_cases hab : a.toNat < b.toNat
      · left; simp [charListLe, hab]
      · by_cases hba : b.toNat < a.toNat
        · right; simp [charListLe, hba]
        · rcases ih bs with h | h
          · left; simp [charListLe, hab, hba, h]
          · right; simp [charListLe, hab, hba, h]

theorem charListLe_trans {as bs cs : List Char}
    (h1 : charListLe as bs = true) (h2 : charListLe bs cs = true) :
    charListLe as cs = true := by
  induction as generalizing bs cs with
  | nil => rfl
  | cons a as ih =>
    cases bs with
    | nil => simp [charListLe] at h1
    | cons b bs =>
      cases cs with
      | nil => simp [charListLe] at h2
      | cons c cs =>
        simp only [charListLe] at h1 h2 ⊢
        by_cases hab : a.toNat < b.toNat
        · by_cases hbc : b.toNat < c.toNat
          · simp [Nat.lt_trans hab hbc]
          · by_cases hcb : c.toNat < b.toNat
            · simp [charListLe, hbc, hcb] at h2
            · have : b.toNat = c.toNat := Nat.le_antisymm (Nat.le_of_not_lt hcb) (Nat.le_of_not_lt hbc)
              simp [this ▸ hab]
        · by_cases hba : b.toNat < a.toNat
          · simp [charListLe, hab, hba] at h1
          · have hab' : a.toNat = b.toNat := Nat.le_antisymm (Nat.le_of_not_lt hba) (Nat.le_of_not_lt hab)
            by_cases hbc : b.toNat < c.toNat
            · simp [hab' ▸ hbc]
            · by_cases hcb : c.toNat < b.toNat
              · simp [charListLe, hbc, hcb] at h2
              · simp only [charListLe, hab, hba, if_neg, if_false] at h1
                simp only [charListLe, hbc, hcb, if_neg, if_false] at h2
                have hac : ¬ a.toNat < c.toNat := by omega
                have hca : ¬ c.toNat < a.toNat := by omega
                simp [hac, hca, ih h1 h2]

theorem charListLe_antisymm {as bs : List Char}
    (h1 : charListLe as bs = true) (h2 : charListLe bs as = true) : as = bs := by
  induction as generalizing bs with
  | nil =>
    cases bs with
    | nil => rfl
    | cons b bs => simp [charListLe] at h2
  | cons a as ih =>
    cases bs with
    | nil => simp [charListLe] at h1
    | cons b bs =>
      simp only [charListLe] at h1 h2
      by_cases hab : a.toNat < b.toNat
      · have : ¬ b.toNat < a.toNat := by omega
        simp [charListLe, hab, this] at h2
      · by_cases hba : b.toNat < a.toNat
        · simp [charListLe, hab, hba] at h1
        · have hval : a.toNat = b.toNat := by omega
          have : a = b := Char.eq_of_val_eq (UInt32.ext hval)
          subst this
          simp only [charListLe, hab, hba, if_neg, if_false] at h1 h2
          exact congrArg (a :: ·) (ih h1 h2)

instance : IsTotal String StrLeR :=
  ⟨fun a b => charListLe_total a.data b.data⟩

instance : IsTrans String StrLeR :=
  ⟨fun _ _ _ h1 h2 => charListLe_trans h1 h2⟩

instance : IsAntisymm String StrLeR :=
  ⟨fun a b h1 h2 => by
    cases a with
    | mk da =>
      cases b with
      | mk db => exact congrArg String.mk (charListLe_antisymm h1 h2)⟩

/-! ### UTF-8 byte length and base64 (Buffer.from / Buffer.byteLength) -/

/-- UTF-8 encoding of one scalar value, as a list of byte values. -/
def utf8EncodeScalar (n : Nat) : List Nat :=
  if n < 128 then [n]
  else if n < 2048 then [192 + n / 64, 128 + n % 64]
  else if n < 65536 then [224 + n / 4096, 128 + (n / 64) % 64, 128 + n % 64]
  else [240 + n / 262144, 128 + (n / 4096) % 64, 128 + (n / 64) % 64, 128 + n % 64]

/-- UTF-8 bytes of a character list. -/
def utf8Encode : List Char → List Nat
  | [] => []
  | c :: cs => utf8EncodeScalar c.toNat ++ utf8Encode cs

/-- Buffer.byteLength(s, utf8): the UTF-8 byte length of a string. -/
def byteLength (s : String) : Nat := (utf8Encode s.data).length

/-- The base64 alphabet, indexed 0 to 63. -/
def base64Alphabet : List Char :=
  "ABCDEFGHIJKLMNOPQRSTUVWXYZabcdefghijklmnopqrstuvwxyz0123456789+/".data

/-- Character of the base64 alphabet at a given index. -/
def base64Char (n : Nat) : Char := base64Alphabet.getD n 'A'

/-- Standard base64 with padding over a byte list, three bytes at a time. -/
def base64Chunks : List Nat → List Char
  | [] => []
  | [a] =>
    [base64Char (a / 4), base64Char ((a % 4) * 16), '=', '=']
  | [a, b] =>
    [base64Char (a / 4), base64Char ((a % 4) * 16 + b / 16), base64Char ((b % 16) * 4), '=']
  | a :: b :: c :: rest =>
    base64Char (a / 4) :: base64Char ((a % 4) * 16 + b / 16) ::
      base64Char ((b % 16) * 4 + c / 64) :: base64Char (c % 64) :: base64Chunks rest

/-- Buffer.from(s).toString(base64): base64 of the UTF-8 bytes of a string. -/
def base64encode (s : String) : String := String.mk (base64Chunks (utf8Encode s.data))

/-! ### Parameter values and JSON serialization

Tool-call parameters are JavaScript scalars (strings, numbers, booleans,
null).  JSON.stringify on this scalar fragment is modelled by jsonStringify;
numbers are modelled as integers, which covers every parameter actually
passed by the tool layer (search limits, years, identifiers, flags).
-/

/-- A JavaScript parameter value as serialized by JSON.stringify. -/
inductive JsVal where
  | str (s : String)
  | num (n : Int)
  | boolean (b : Bool)
  | null
deriving DecidableEq

/-- JSON escaping for the characters that require it in a JSON string. -/
def jsonEscapeChar (c : Char) : List Char :=
  if c = '"' then ['\\', '"']
  else if c = '\\' then ['\\', '\\']
  else [c]

/-- JSON.stringify restricted to the scalar values used as parameters. -/
def jsonStringify : JsVal → String
  | .str s => String.mk ('"' :: (s.data.flatMap jsonEscapeChar) ++ ['"'])
  | .num n => toString n
  | .boolean b => cond b "true" "false"
  | .null => "null"

/-! ### CacheService.generateKey (src/services/cache.ts, lines 112 to 118)

Object.keys(params) yields the parameter names in insertion order; a
parameter mapping is therefore modelled as an association list whose keys are
distinct.  params[key] is List.lookup.  The source sorts the keys, renders
each as key colon serialized-value, joins with a vertical bar, and wraps the
result as type colon base64.
-/

namespace CacheService

/-- generateKey from the source: sorted keys, rendered and base64-wrapped. -/
def generateKey (ty : String) (params : List (String × JsVal)) : String :=
  let sorted := List.insertionSort StrLeR (params.map Prod.fst)
  let joined := String.intercalate "|"
    (sorted.map (fun k => k ++ ":" ++ jsonStringify ((List.lookup k params).getD .null)))
  ty ++ ":" ++ base64encode joined

end CacheService

/-- Lookup in an association list is invariant under permutation when the
keys are distinct. -/
theorem lookup_eq_of_perm {β : Type} (k : String) (p q : List (String × β))
    (hperm : p.Perm q) (hnd : (p.map Prod.fst).Nodup) :
    List.lookup k p = List.lookup k q := by
  induction hperm with
  | nil => rfl
  | cons x _ ih =>
    simp only [List.map_cons, List.nodup_cons] at hnd
    simp only [List.lookup]
    cases hbeq : k == x.1 with
    | true => rfl
    | false => exact ih hnd.2
  | swap x y l =>
    simp only [List.map_cons, List.nodup_cons, List.mem_cons] at hnd
    have hxy : y.1 ≠ x.1 := fun h => hnd.1 (Or.inl h)
    simp only [List.lookup]
    cases hky : k == y.1 with
    | true =>
      have : k = y.1 := eq_of_beq hky
      have : (k == x.1) = false := beq_eq_false_iff_ne.mpr (this ▸ hxy)
      simp [this, hky]
    | false =>
      cases hkx : k == x.1 with
      | true => simp [hkx, hky]
      | false => simp [hkx, hky]
  | trans h12 _ ih1 ih2 =>
    refine (ih1 hnd).trans (ih2 ?_)
    have := h12.map Prod.fst
    exact (this.nodup_iff).mp hnd

/-- Claim C8: for every operation name and every parameter mapping, the
key-builder CacheService.generateKey is deterministic and order-independent:
two parameter mappings containing the same key/value pairs in any insertion
order produce identical cache keys. -/
theorem generateKey_deterministic_of_perm (ty : String) (p q : List (String × JsVal))
    (hperm : p.Perm q) (hnd : (p.map Prod.fst).Nodup) :
    CacheService.generateKey ty p = CacheService.generateKey ty q := by
  unfold CacheService.generateKey
  have hkeys : (p.map Prod.fst).Perm (q.map Prod.fst) := hperm.map Prod.fst
  have hsorted : List.insertionSort StrLeR (p.map Prod.fst)
      = List.insertionSort StrLeR (q.map Prod.fst) := by
    refine List.eq_of_perm_of_sorted ?_ (List.sorted_insertionSort _ _) (List.sorted_insertionSort _ _)
    exact ((List.perm_insertionSort _ _).trans hkeys).trans (List.perm_insertionSort _ _).symm
  have hlookup : ∀ k : String, List.lookup k p = List.lookup k q :=
    fun k => lookup_eq_of_perm k p q hperm hnd
  simp only [hsorted]
  have : (fun k => k ++ ":" ++ jsonStringify ((List.lookup k p).getD .null))
       = (fun k => k ++ ":" ++ jsonStringify ((List.lookup k q).getD .null)) := by
    funext k; rw [hlookup k]
  rw [this]

/-- Witness for claim C8: the two insertion orders of the parameter mapping
with keys a and b produce the same key for the search operation. -/
theorem generateKey_deterministic_witness :
    CacheService.generateKey "search" [("a", .num 1), ("b", .num 2)]
      = CacheService.generateKey "search" [("b", .num 2), ("a", .num 1)] :=
  generateKey_deterministic_of_perm "search" _ _
    (List.Perm.swap ("b", JsVal.num 2) ("a", JsVal.num 1) []) (by decide)

/-! ### The cache store (src/services/cache.ts)

One row of the cache table, as created by initializeSchema: id (primary
key), type, key (unique), data, createdAt, expiresAt, size.  The database is
modelled as the list of rows in rowid order together with the in-memory hit
and miss counters and the configuration read in the constructor: ttl (from
CACHE_TTL_DAYS, in milliseconds) and maxSize (from CACHE_MAX_SIZE, bytes).
-/

structure CacheRow where
  id : String
  type : String
  key : String
  data : String
  createdAt : Nat
  expiresAt : Nat
  size : Nat
deriving DecidableEq

structure CacheState where
  rows : List CacheRow
  hitCount : Nat
  missCount : Nat
  ttl : Nat
  maxSize : Nat
deriving DecidableEq

/-- Cache statistics, as returned by getStats. -/
structure CacheStats where
  hits : Nat
  misses : Nat
  size : Nat
  entries : Nat
deriving DecidableEq

/-- The value of strftime(percent-s, now) * 1000 at wall-clock millisecond
now: SQLite renders whole seconds, so the product is now truncated to
second granularity. -/
def sqlNowMs (now : Nat) : Nat := now / 1000 * 1000

/-- SUM(size) over the cache table. -/
def totalSize (rows : List CacheRow) : Nat := (rows.map CacheRow.size).sum

/-- Ordering used by ORDER BY createdAt ASC. -/
def byCreatedAt (a b : CacheRow) : Prop := a.createdAt ≤ b.createdAt

instance : DecidableRel byCreatedAt := fun a b => by
  unfold byCreatedAt; infer_instance

namespace CacheService

/-- The row id built in set: type, Date.now() and a random suffix. -/
def mkCacheId (ty : String) (now : Nat) (rnd : String) : String :=
  ty ++ "_" ++ toString now ++ "_" ++ rnd

/-- get from the source: one SELECT filtered by key and expiresAt strictly
above the second-truncated current time; a returned row bumps the hit
counter, otherwise the miss counter is bumped. -/
def get (s : CacheState) (ty : String) (params : List (String × JsVal)) (now : Nat) :
    Option String × CacheState :=
  let key := generateKey ty params
  match s.rows.find? (fun r => r.key == key && decide (sqlNowMs now < r.expiresAt)) with
  | some r => (some r.data, { s with hitCount := s.hitCount + 1 })
  | none => (none, { s with missCount := s.missCount + 1 })

/-- checkSize from the source: when SUM(size) exceeds maxSize, delete the
max(100, floor(totalSize * 0.1 / ttl)) rows with the smallest createdAt, in
one batch.  The floating-point expression totalSize * 0.1 / ttl is modelled
by its exact value, whose floor is totalSize / (10 * ttl) in natural
division. -/
def checkSize (s : CacheState) : CacheState :=
  if s.maxSize < totalSize s.rows then
    let deleteCount := max 100 (totalSize s.rows / (10 * s.ttl))
    let doomed := (List.insertionSort byCreatedAt s.rows).take deleteCount
    { s with rows := s.rows.filter (fun r => !((doomed.map CacheRow.id).contains r.id)) }
  else s

/-- set from the source.  The key is generated, the value serialized and its
byte length taken; then, inside the try block, an INSERT OR REPLACE writes
the row (replacing any row that conflicts on the primary key id or on the
unique key column), the AFTER INSERT trigger cleanup-expired deletes rows
whose expiresAt lies before the second-truncated current time, and checkSize
runs.  A storage failure inside the try block (resolved here by writeOk =
false) is caught: the warning flag in the second component is the
logger.warn call, and the state is left unchanged.  The expiry written is
now plus the ttl fixed in the constructor; set has no per-write ttl
argument. -/
def set (s : CacheState) (ty : String) (params : List (String × JsVal)) (data : JsVal)
    (now : Nat) (rnd : String) (writeOk : Bool) : CacheState × Bool :=
  let key := generateKey ty params
  let serialized := jsonStringify data
  let size := byteLength serialized
  match writeOk with
  | true =>
    let id := mkCacheId ty now rnd
    let newRow : CacheRow := ⟨id, ty, key, serialized, now, now + s.ttl, size⟩
    let afterInsert := s.rows.filter (fun r => !(r.id == id) && !(r.key == key)) ++ [newRow]
    let afterTrigger := afterInsert.filter (fun r => !(decide (r.expiresAt < sqlNowMs now)))
    (checkSize { s with rows := afterTrigger }, false)
  | false =>
    (s, true)

/-- getStats from the source: counters, SUM(size) and COUNT(*). -/
def getStats (s : CacheState) : CacheStats :=
  ⟨s.hitCount, s.missCount, totalSize s.rows, s.rows.length⟩

end CacheService

/-! ### Cache store: settled claims -/

/-- A pre-existing cache row with a two-character id and a three-character
key, size one byte, created at millisecond i, far from expiry. -/
def c1Row (i : Nat) : CacheRow :=
  ⟨String.mk [Char.ofNat (65 + i / 10), Char.ofNat (48 + i % 10)],
   "paper",
   String.mk ['k', Char.ofNat (65 + i / 10), Char.ofNat (48 + i % 10)],
   "x", i, 2000000000000, 1⟩

/-- A store holding 101 one-byte rows with distinct createdAt values, with
the default ttl (seven days in milliseconds) and a configured maximum
aggregate size of one byte. -/
def c1Store : CacheState := ⟨(List.range 101).map c1Row, 0, 0, 604800000, 1⟩

/-- Claim C1, failing input: on a store whose configured maximum is 1 byte
and which holds 101 one-byte rows, the write that pushes the aggregate to
102 bytes triggers checkSize, which deletes a single batch of
max(100, floor(102 * 0.1 / 604800000)) = 100 oldest rows and stops: the
aggregate size reported by stats after the triggering write is 2, still
above the configured maximum, contradicting the claimed bound even though
the source comments say the loop deletes oldest entries until under the
limit. -/
theorem checkSize_leaves_store_over_budget :
    c1Store.maxSize = 1 ∧
    (CacheService.getStats
      (CacheService.set c1Store "paper" [("q", JsVal.num 0)] (JsVal.num 0) 101 "z" true).1).size
      = 2 := by
  decide

/-- An empty store with the default configuration. -/
def c2Store : CacheState := ⟨[], 0, 0, 604800000, 1073741824⟩

/-- Claim C2, counterexample: set has no per-write ttl argument; writing at
millisecond 1000 produces an entry expiring at 1000 + 604800000 (the
constructor-level ttl from CACHE_TTL_DAYS), not at now plus a caller-chosen
ttlSeconds such as 5 (whether read as 5 seconds, giving 6000, or 5
milliseconds, giving 1005). -/
theorem cacheSet_expiry_ignores_per_write_ttl :
    ((CacheService.set c2Store "paper" [] (JsVal.str "v") 1000 "z" true).1.rows.map
        CacheRow.expiresAt) = [604801000]
    ∧ (604801000 : Nat) ≠ 6000 ∧ (604801000 : Nat) ≠ 1005 := by
  decide

/-- The rows produced by a successful set before the size check: the
surviving old rows (no conflict on id or key, not swept by the expiry
trigger) followed by the freshly inserted row. -/
def CacheService.upsertResult (s : CacheState) (ty : String)
    (params : List (String × JsVal)) (data : JsVal) (now : Nat) (rnd : String) :
    List CacheRow :=
  let key := CacheService.generateKey ty params
  let id := CacheService.mkCacheId ty now rnd
  let serialized := jsonStringify data
  ((s.rows.filter (fun r => !(r.id == id) && !(r.key == key))).filter
      (fun r => !(decide (r.expiresAt < sqlNowMs now))))
    ++ [⟨id, ty, key, serialized, now, now + s.ttl, byteLength serialized⟩]

/-- Claim C2 as amended: set derives the key, serializes the value and
upserts, overwriting any existing entry for that key; the written entry has
createdAt = now, expiresAt = now plus the store-wide ttl fixed at
construction (there is no per-write ttl), and size equal to the UTF-8 byte
length of the serialized value.  Stated for writes that leave the aggregate
within budget, so that the subsequent size check does not additionally
evict. -/
theorem cacheSet_upsert_config_ttl (s : CacheState) (ty : String)
    (params : List (String × JsVal)) (data : JsVal) (now : Nat) (rnd : String)
    (hfit : totalSize (CacheService.upsertResult s ty params data now rnd) ≤ s.maxSize) :
    (CacheService.set s ty params data now rnd true).1
      = { s with rows := CacheService.upsertResult s ty params data now rnd }
    ∧ (⟨CacheService.mkCacheId ty now rnd, ty, CacheService.generateKey ty params,
        jsonStringify data, now, now + s.ttl, byteLength (jsonStringify data)⟩ : CacheRow)
        ∈ CacheService.upsertResult s ty params data now rnd
    ∧ ∀ r ∈ CacheService.upsertResult s ty params data now rnd,
        r.key = CacheService.generateKey ty params →
        r = ⟨CacheService.mkCacheId ty now rnd, ty, CacheService.generateKey ty params,
             jsonStringify data, now, now + s.ttl, byteLength (jsonStringify data)⟩ := by
  have hAfter : ∀ (conf : CacheRow → Bool) (newRow : CacheRow),
      (!(decide (newRow.expiresAt < sqlNowMs now))) = true →
      List.filter (fun r => !(decide (r.expiresAt < sqlNowMs now)))
          (s.rows.filter conf ++ [newRow])
        = List.filter (fun r => !(decide (r.expiresAt < sqlNowMs now)))
            (s.rows.filter conf) ++ [newRow] := by
    intro conf newRow h
    simp [List.filter_append, List.filter_cons, h]
  refine ⟨?_, ?_, ?_⟩
  · show (CacheService.set s ty params data now rnd true).1 = _
    unfold CacheService.set
    simp only []
    rw [hAfter _ _ (by
      have h1 : sqlNowMs now ≤ now := Nat.div_mul_le_self now 1000
      simp only [Bool.not_eq_true', decide_eq_false_iff_not, not_lt]
      omega)]
    have hres : List.filter (fun r => !(decide (r.expiresAt < sqlNowMs now)))
          (s.rows.filter (fun r =>
            !(r.id == CacheService.mkCacheId ty now rnd)
            && !(r.key == CacheService.generateKey ty params)))
        ++ [⟨CacheService.mkCacheId ty now rnd, ty, CacheService.generateKey ty params,
             jsonStringify data, now, now + s.ttl, byteLength (jsonStringify data)⟩]
        = CacheService.upsertResult s ty params data now rnd := rfl
    rw [hres]
    unfold CacheService.checkSize
    rw [if_neg (by simpa using Nat.not_lt.mpr hfit)]
  · unfold CacheService.upsertResult
    exact List.mem_append_right _ (List.mem_singleton.mpr rfl)
  · intro r hr hkey
    unfold CacheService.upsertResult at hr
    rcases List.mem_append.mp hr with hl | hrr
    · have hconf := List.of_mem_filter (List.mem_of_mem_filter hl)
      rw [Bool.and_eq_true, Bool.not_eq_true', Bool.not_eq_true'] at hconf
      exact absurd (beq_iff_eq.mpr hkey) (by simp [hconf.2])
    · exact List.mem_singleton.mp hrr

/-- Witness for the amended claim C2: a concrete write into the empty store
leaves exactly the fresh row, carrying the configured ttl. -/
theorem cacheSet_upsert_config_ttl_witness :
    (CacheService.set c2Store "paper" [] (JsVal.str "v") 1000 "z" true).1
      = { c2Store with rows := CacheService.upsertResult c2Store "paper" [] (JsVal.str "v") 1000 "z" } :=
  (cacheSet_upsert_config_ttl c2Store "paper" [] (JsVal.str "v") 1000 "z" (by decide)).1

/-- On a table whose key column is unique, the single SELECT of get (key
matches and expiry lies strictly beyond the truncated clock) is the key-only
lookup followed by the liveness test. -/
theorem find?_key_live (rows : List CacheRow) (key : String) (now : Nat)
    (hnd : (rows.map CacheRow.key).Nodup) :
    rows.find? (fun r => r.key == key && decide (sqlNowMs now < r.expiresAt)) =
      match rows.find? (fun r => r.key == key) with
      | none => none
      | some r => if sqlNowMs now < r.expiresAt then some r else none := by
  induction rows with
  | nil => rfl
  | cons r rs ih =>
    simp only [List.map_cons, List.nodup_cons] at hnd
    by_cases hk : (r.key == key) = true
    · have hkey : r.key = key := eq_of_beq hk
      by_cases hlive : sqlNowMs now < r.expiresAt
      · simp [List.find?_cons, hk, hlive]
      · have hnone : rs.find? (fun x => x.key == key && decide (sqlNowMs now < x.expiresAt)) = none := by
          rw [List.find?_eq_none]
          intro x hx
          simp only [Bool.and_eq_true, beq_iff_eq, decide_eq_true_eq, not_and]
          intro hxk
          exact (hnd.1 (by
            rw [hkey, ← hxk]
            exact List.mem_map_of_mem CacheRow.key hx)).elim
        simp [List.find?_cons, hk, hlive, hnone]
    · simp [List.find?_cons, hk, ih hnd.2]

/-- Claim C6 as amended: get misses when the key is absent, and when the
entry is present its expiry is compared against the current time truncated
to whole seconds (the SQL clock of the SELECT): expiresAt at or below the
truncated clock is a miss, above it a hit returning the stored value; a hit
bumps the hit counter and a miss the miss counter.  Rows expired strictly
within the current second are therefore still surfaced. -/
theorem cacheGet_spec (s : CacheState) (ty : String) (params : List (String × JsVal))
    (now : Nat) (hnd : (s.rows.map CacheRow.key).Nodup) :
    CacheService.get s ty params now =
      match s.rows.find? (fun r => r.key == CacheService.generateKey ty params) with
      | none => (none, { s with missCount := s.missCount + 1 })
      | some r =>
        if sqlNowMs now < r.expiresAt
        then (some r.data, { s with hitCount := s.hitCount + 1 })
        else (none, { s with missCount := s.missCount + 1 }) := by
  have h := find?_key_live s.rows (CacheService.generateKey ty params) now hnd
  cases hfind : s.rows.find? (fun r => r.key == CacheService.generateKey ty params) with
  | none =>
    rw [hfind] at h
    simp only [CacheService.get, h]
  | some r =>
    rw [hfind] at h
    simp only [] at h ⊢
    by_cases hlive : sqlNowMs now < r.expiresAt
    · rw [if_pos hlive] at h
      simp only [CacheService.get, h, if_pos hlive]
    · rw [if_neg hlive] at h
      simp only [CacheService.get, h, if_neg hlive]

/-- A store holding one row for the key of operation paper with empty
parameters, whose expiry 1200 has already passed at wall-clock time 1500. -/
def c6Store : CacheState :=
  ⟨[⟨"i", "paper", "paper:", "v", 100, 1200, 1⟩], 0, 0, 604800000, 1073741824⟩

/-- Claim C6, counterexample: at wall-clock millisecond 1500 the stored row
expired at 1200, yet get surfaces it (the SELECT compares expiresAt against
strftime seconds times 1000, here 1000), so an entry whose expiresAt is not
later than the current time is returned rather than treated as a miss. -/
theorem cacheGet_surfaces_expired_row :
    c6Store.rows.map CacheRow.expiresAt = [1200]
    ∧ (1200 : Nat) ≤ 1500
    ∧ (CacheService.get c6Store "paper" [] 1500).1 = some "v" := by
  decide

/-- Witness for the amended claim C6: on the one-row store the
characterization evaluates to a hit that returns the stored value and bumps
the hit counter. -/
theorem cacheGet_spec_witness :
    CacheService.get c6Store "paper" [] 1500 = (some "v", { c6Store with hitCount := 1 }) :=
  (cacheGet_spec c6Store "paper" [] 1500 (by decide)).trans (by decide)

/-- The tail of a tool handler after a fresh upstream result (for example
tools/index.ts, search: cache.set then return the fresh results): the
handler returns the serialized fresh result whatever the cache write did. -/
def toolReturnAfterCache (s : CacheState) (ty : String) (params : List (String × JsVal))
    (data : JsVal) (now : Nat) (rnd : String) (writeOk : Bool) : String × CacheState :=
  let out := CacheService.set s ty params data now rnd writeOk
  (jsonStringify data, out.1)

/-- Claim C9: a failure of the underlying storage write surfaces from set
only as the non-fatal warning flag (the logger.warn call in the catch
block), with the store left unchanged, and set returns normally rather than
raising, as witnessed by its total type; the originating tool call still
returns the freshly computed result whether or not the cache write
succeeded. -/
theorem cacheSet_failure_nonfatal (s : CacheState) (ty : String)
    (params : List (String × JsVal)) (data : JsVal) (now : Nat) (rnd : String) :
    CacheService.set s ty params data now rnd false = (s, true)
    ∧ ∀ writeOk : Bool,
        (toolReturnAfterCache s ty params data now rnd writeOk).1 = jsonStringify data := by
  exact ⟨rfl, fun _ => rfl⟩

/-! ### The token-bucket rate limiter (src/services/rateLimit.ts)

Token counts are JavaScript numbers; they are modelled as rationals.
Timestamps are Date.now() milliseconds.  The per-key state map is an
association list in Map insertion order.
-/

structure RateLimitConfig where
  requestsPerMinute : ℚ
  burstSize : ℚ
deriving DecidableEq

structure RateLimitState where
  tokens : ℚ
  lastRefill : Nat
deriving DecidableEq

structure RateLimitService where
  config : RateLimitConfig
  states : List (String × RateLimitState)
deriving DecidableEq

/-- Map.set semantics: replace the entry in place when the key is present,
append it otherwise. -/
def setMapEntry (m : List (String × RateLimitState)) (k : String) (v : RateLimitState) :
    List (String × RateLimitState) :=
  if m.any (fun p => p.1 == k) then
    m.map (fun p => if p.1 == k then (k, v) else p)
  else
    m ++ [(k, v)]

theorem lookup_setMapEntry (m : List (String × RateLimitState)) (k : String)
    (v : RateLimitState) : List.lookup k (setMapEntry m k v) = some v := by
  unfold setMapEntry
  by_cases hany : (m.any (fun p => p.1 == k)) = true
  · rw [if_pos hany]
    induction m with
    | nil => simp at hany
    | cons p m ih =>
      obtain ⟨a, b⟩ := p
      simp only [List.any_cons, Bool.or_eq_true] at hany
      by_cases hp : ((a, b).1 == k) = true
      · rw [List.map_cons, if_pos hp]
        simp [List.lookup]
      · rw [List.map_cons, if_neg hp]
        have hk : (k == a) = false := by
          rw [beq_eq_false_iff_ne]
          intro h
          exact hp (beq_iff_eq.mpr (by simpa using h.symm))
        simp only [List.lookup, hk]
        exact ih (hany.resolve_left hp)
  · rw [if_neg hany]
    induction m with
    | nil => simp [List.lookup]
    | cons p m ih =>
      obtain ⟨a, b⟩ := p
      simp only [List.any_cons, Bool.or_eq_true, not_or] at hany
      have hk : (k == a) = false := by
        rw [beq_eq_false_iff_ne]
        intro h
        exact hany.1 (by simpa using beq_iff_eq.mpr h.symm)
      simp only [List.cons_append, List.lookup, hk]
      exact ih (by simpa using hany.2)

theorem mem_setMapEntry {m : List (String × RateLimitState)} {k : String}
    {v : RateLimitState} {p : String × RateLimitState} (hp : p ∈ setMapEntry m k v) :
    p = (k, v) ∨ p ∈ m := by
  unfold setMapEntry at hp
  by_cases hany : (m.any (fun q => q.1 == k)) = true
  · rw [if_pos hany] at hp
    rcases List.mem_map.mp hp with ⟨q, hq, hfq⟩
    by_cases h : (q.1 == k) = true
    · left; rw [← hfq]; simp [h]
    · right; rw [← hfq]; simp [h]; exact hq
  · rw [if_neg hany] at hp
    rcases List.mem_append.mp hp with h | h
    · right; exact h
    · left; exact List.mem_singleton.mp h

namespace RateLimitService

/-- isAllowed from the source: look up or lazily create the per-key state
(initialized with burstSize tokens), add floor(elapsedMs * requestsPerMinute
/ 60000) tokens capped at burstSize, stamp lastRefill = now, then admit and
decrement when at least one token is available, else deny without
decrementing. -/
def isAllowed (svc : RateLimitService) (key : String) (now : Nat) :
    Bool × RateLimitService :=
  let st0 := match List.lookup key svc.states with
    | some st => st
    | none => ⟨svc.config.burstSize, now⟩
  let elapsed : ℤ := (now : ℤ) - (st0.lastRefill : ℤ)
  let tokensToAdd : ℤ := ⌊(elapsed : ℚ) * (svc.config.requestsPerMinute / 60000)⌋
  let tokens1 := min svc.config.burstSize (st0.tokens + (tokensToAdd : ℚ))
  if 1 ≤ tokens1 then
    (true, { svc with states := setMapEntry svc.states key ⟨tokens1 - 1, now⟩ })
  else
    (false, { svc with states := setMapEntry svc.states key ⟨tokens1, now⟩ })

/-- getRemaining from the source: the same refill projection without any
state mutation. -/
def getRemaining (svc : RateLimitService) (key : String) (now : Nat) : ℚ :=
  match List.lookup key svc.states with
  | none => svc.config.burstSize
  | some st =>
    let elapsed : ℤ := (now : ℤ) - (st.lastRefill : ℤ)
    let tokensToAdd : ℤ := ⌊(elapsed : ℚ) * (svc.config.requestsPerMinute / 60000)⌋
    min svc.config.burstSize (st.tokens + (tokensToAdd : ℚ))

end RateLimitService

/-- One limiter call: isAllowed, getRemaining (pure), reset of one key
(Map.delete) or clear of all states (Map.clear), each invoked at a
wall-clock instant. -/
inductive RLOp where
  | allowed (key : String) (now : Nat)
  | remaining (key : String) (now : Nat)
  | reset (key : String) (now : Nat)
  | clearAll (now : Nat)

/-- The wall-clock instant at which an operation runs. -/
def RLOp.time : RLOp → Nat
  | .allowed _ now => now
  | .remaining _ now => now
  | .reset _ now => now
  | .clearAll now => now

/-- State transition of one limiter call. -/
def RateLimitService.step (svc : RateLimitService) : RLOp → RateLimitService
  | .allowed key now => (svc.isAllowed key now).2
  | .remaining _ _ => svc
  | .reset key _ => { svc with states := svc.states.filter (fun p => !(p.1 == key)) }
  | .clearAll _ => { svc with states := [] }

/-- Run a sequence of limiter calls. -/
def runOps (svc : RateLimitService) : List RLOp → RateLimitService
  | [] => svc
  | op :: ops => runOps (svc.step op) ops

/-- The per-key invariant together with the clock bound needed to push it
through a step: every stored token count lies in [0, burstSize] and every
stored lastRefill is at or before the given instant. -/
def TokensWF (svc : RateLimitService) (t : Nat) : Prop :=
  ∀ p ∈ svc.states, 0 ≤ p.2.tokens ∧ p.2.tokens ≤ svc.config.burstSize ∧ p.2.lastRefill ≤ t

theorem mem_of_lookup_eq_some {m : List (String × RateLimitState)} {k : String}
    {v : RateLimitState} (h : List.lookup k m = some v) : (k, v) ∈ m := by
  induction m with
  | nil => simp [List.lookup] at h
  | cons p m ih =>
    obtain ⟨a, b⟩ := p
    by_cases hk : (k == a) = true
    · simp only [List.lookup, hk] at h
      obtain rfl : b = v := by simpa using h
      obtain rfl : k = a := eq_of_beq hk
      exact List.mem_cons_self _ _
    · simp only [List.lookup, Bool.not_eq_true] at h
      rw [Bool.not_eq_true] at hk
      rw [hk] at h
      exact List.mem_cons_of_mem _ (ih h)

/-- After a refill from a nonnegative token count over a nonnegative elapsed
time, the capped token count stays within [0, burstSize]. -/
theorem refill_bounds (burst rpm tok : ℚ) (lr now : Nat)
    (hb : 0 ≤ burst) (hr : 0 ≤ rpm) (ht0 : 0 ≤ tok) (hlr : lr ≤ now) :
    0 ≤ min burst (tok + ((⌊((((now : ℤ) - (lr : ℤ)) : ℤ) : ℚ) * (rpm / 60000)⌋ : ℤ) : ℚ))
    ∧ min burst (tok + ((⌊((((now : ℤ) - (lr : ℤ)) : ℤ) : ℚ) * (rpm / 60000)⌋ : ℤ) : ℚ)) ≤ burst := by
  refine ⟨le_min hb (add_nonneg ht0 ?_), min_le_left _ _⟩
  have he : (0 : ℚ) ≤ ((((now : ℤ) - (lr : ℤ)) : ℤ) : ℚ) := by
    have hz : (0 : ℤ) ≤ (now : ℤ) - (lr : ℤ) := by omega
    exact_mod_cast hz
  have hprod : (0 : ℚ) ≤ ((((now : ℤ) - (lr : ℤ)) : ℤ) : ℚ) * (rpm / 60000) :=
    mul_nonneg he (div_nonneg hr (by norm_num))
  have hfl : (0 : ℤ) ≤ ⌊((((now : ℤ) - (lr : ℤ)) : ℤ) : ℚ) * (rpm / 60000)⌋ :=
    Int.le_floor.mpr (by simpa using hprod)
  exact_mod_cast hfl

/-- Writing an in-range state into the map preserves the invariant, moving
the clock bound forward. -/
theorem TokensWF_setMapEntry (svc : RateLimitService) (t now : Nat) (key : String)
    (u : RateLimitState) (hwf : TokensWF svc t) (ht : t ≤ now)
    (hu0 : 0 ≤ u.tokens) (hub : u.tokens ≤ svc.config.burstSize) (hulr : u.lastRefill ≤ now) :
    TokensWF { svc with states := setMapEntry svc.states key u } now := by
  intro p hp
  rcases mem_setMapEntry hp with rfl | hpm
  · exact ⟨hu0, hub, hulr⟩
  · have h := hwf p hpm
    exact ⟨h.1, h.2.1, le_trans h.2.2 ht⟩

/-- One isAllowed call preserves the token invariant. -/
theorem isAllowed_preserves (svc : RateLimitService) (key : String) (now t : Nat)
    (hr : 0 ≤ svc.config.requestsPerMinute) (hb : 0 ≤ svc.config.burstSize)
    (hwf : TokensWF svc t) (ht : t ≤ now) :
    TokensWF (svc.isAllowed key now).2 now := by
  unfold RateLimitService.isAllowed
  cases hlk : List.lookup key svc.states with
  | some st =>
    have hst := hwf (key, st) (mem_of_lookup_eq_some hlk)
    have hbounds := refill_bounds svc.config.burstSize svc.config.requestsPerMinute
      st.tokens st.lastRefill now hb hr hst.1 (le_trans hst.2.2 ht)
    simp only [hlk]
    by_cases h1 : 1 ≤ min svc.config.burstSize
        (st.tokens + ((⌊((((now : ℤ) - (st.lastRefill : ℤ)) : ℤ) : ℚ)
          * (svc.config.requestsPerMinute / 60000)⌋ : ℤ) : ℚ))
    · rw [if_pos h1]
      exact TokensWF_setMapEntry svc t now key _ hwf ht
        (sub_nonneg.mpr h1)
        (le_trans (sub_le_self _ zero_le_one) hbounds.2) le_rfl
    · rw [if_neg h1]
      exact TokensWF_setMapEntry svc t now key _ hwf ht hbounds.1 hbounds.2 le_rfl
  | none =>
    have hbounds := refill_bounds svc.config.burstSize svc.config.requestsPerMinute
      svc.config.burstSize now now hb hr hb le_rfl
    simp only [hlk]
    by_cases h1 : 1 ≤ min svc.config.burstSize
        (svc.config.burstSize + ((⌊((((now : ℤ) - ((now : Nat) : ℤ)) : ℤ) : ℚ)
          * (svc.config.requestsPerMinute / 60000)⌋ : ℤ) : ℚ))
    · rw [if_pos h1]
      exact TokensWF_setMapEntry svc t now key _ hwf ht
        (sub_nonneg.mpr h1)
        (le_trans (sub_le_self _ zero_le_one) hbounds.2) le_rfl
    · rw [if_neg h1]
      exact TokensWF_setMapEntry svc t now key _ hwf ht hbounds.1 hbounds.2 le_rfl

/-- Every limiter call preserves the token invariant and the configuration. -/
theorem step_preserves (svc : RateLimitService) (op : RLOp) (t : Nat)
    (hr : 0 ≤ svc.config.requestsPerMinute) (hb : 0 ≤ svc.config.burstSize)
    (hwf : TokensWF svc t) (ht : t ≤ op.time) :
    TokensWF (svc.step op) op.time ∧ (svc.step op).config = svc.config := by
  cases op with
  | allowed key now =>
    refine ⟨isAllowed_preserves svc key now t hr hb hwf ht, ?_⟩
    show ((svc.isAllowed key now).2).config = svc.config
    unfold RateLimitService.isAllowed
    cases hlk : List.lookup key svc.states with
    | some st =>
      simp only [hlk]
      split <;> rfl
    | none =>
      simp only [hlk]
      split <;> rfl
  | remaining key now =>
    exact ⟨fun p hp => ⟨(hwf p hp).1, (hwf p hp).2.1, le_trans (hwf p hp).2.2 ht⟩, rfl⟩
  | reset key now =>
    refine ⟨fun p hp => ?_, rfl⟩
    have h := hwf p (List.mem_of_mem_filter hp)
    exact ⟨h.1, h.2.1, le_trans h.2.2 ht⟩
  | clearAll now =>
    exact ⟨fun p hp => by simp [RateLimitService.step] at hp, rfl⟩

/-- Running a monotone-timed sequence of calls from an invariant state keeps
the invariant and the configuration. -/
theorem runOps_preserves (ops : List RLOp) (svc : RateLimitService) (t : Nat)
    (hr : 0 ≤ svc.config.requestsPerMinute) (hb : 0 ≤ svc.config.burstSize)
    (hwf : TokensWF svc t) (hfirst : ∀ op ∈ ops.head?, t ≤ op.time)
    (hmono : List.Chain' (fun a b => a.time ≤ b.time) ops) :
    (∃ u, TokensWF (runOps svc ops) u) ∧ (runOps svc ops).config = svc.config := by
  induction ops generalizing svc t with
  | nil => exact ⟨⟨t, hwf⟩, rfl⟩
  | cons op ops ih =>
    have hto : t ≤ op.time := hfirst op (by simp)
    have hstep := step_preserves svc op t hr hb hwf hto
    have hnext := List.chain'_cons'.mp hmono
    have := ih (svc.step op) op.time (hstep.2 ▸ hr) (hstep.2 ▸ hb) hstep.1 hnext.1 hnext.2
    exact ⟨this.1, this.2.trans hstep.2⟩

/-- Claim C7: starting from the freshly constructed limiter, any
monotone-timed sequence of isAllowed, getRemaining, reset and clear calls
keeps every stored token count within [0, burstSize] (every observation
point is the final state of such a sequence); and state for a key is created
lazily on first use initialized with tokens = burstSize, the creating call
itself then consuming one token when at least one is available. -/
theorem rateLimiter_tokens_invariant (cfg : RateLimitConfig)
    (hr : 0 ≤ cfg.requestsPerMinute) (hb : 0 ≤ cfg.burstSize)
    (ops : List RLOp) (hmono : List.Chain' (fun a b => a.time ≤ b.time) ops) :
    (∀ p ∈ (runOps ⟨cfg, []⟩ ops).states, 0 ≤ p.2.tokens ∧ p.2.tokens ≤ cfg.burstSize)
    ∧ ∀ (svc : RateLimitService) (key : String) (now : Nat), svc.config = cfg →
        List.lookup key svc.states = none →
        List.lookup key ((svc.isAllowed key now).2).states
          = some ⟨if 1 ≤ cfg.burstSize then cfg.burstSize - 1 else cfg.burstSize, now⟩ := by
  constructor
  · have hrun := runOps_preserves ops ⟨cfg, []⟩ 0 hr hb (fun p hp => by simp at hp)
      (fun op _ => Nat.zero_le _) hmono
    obtain ⟨⟨u, hwf⟩, hcfg⟩ := hrun
    intro p hp
    have h := hwf p hp
    rw [hcfg] at h
    exact ⟨h.1, h.2.1⟩
  · intro svc key now hcfg hnone
    unfold RateLimitService.isAllowed
    simp only [hnone]
    have hzero : ((⌊((((now : ℤ) - ((now : Nat) : ℤ)) : ℤ) : ℚ)
        * (svc.config.requestsPerMinute / 60000)⌋ : ℤ) : ℚ) = 0 := by
      simp
    by_cases h1 : 1 ≤ cfg.burstSize
    · rw [if_pos (by rw [hcfg] at *; simpa [hzero] using h1)]
      rw [lookup_setMapEntry]
      congr 1
      simp [hzero, hcfg, if_pos h1]
    · rw [if_neg (by rw [hcfg] at *; simpa [hzero] using h1)]
      rw [lookup_setMapEntry]
      congr 1
      simp [hzero, hcfg, if_neg h1]

/-- Witness for claim C7: with requestsPerMinute 60 and burstSize 5, the
single call isAllowed(default) at time 0 creates the state lazily and
leaves it with 4 tokens, inside the claimed range. -/
theorem rateLimiter_tokens_invariant_witness :
    0 ≤ (4 : ℚ) ∧ (4 : ℚ) ≤ 5 ∧
    List.lookup "default"
        (((⟨⟨60, 5⟩, []⟩ : RateLimitService).isAllowed "default" 0).2).states
      = some ⟨4, 0⟩ := by
  have h := rateLimiter_tokens_invariant ⟨60, 5⟩ (by norm_num) (by norm_num) [] List.chain'_nil
  have h2 := h.2 ⟨⟨60, 5⟩, []⟩ "default" 0 rfl (by simp [List.lookup])
  refine ⟨by norm_num, by norm_num, ?_⟩
  rw [h2]
  norm_num

/-- Claim C3 as amended: on every isAllowed call for a tracked key, the
token count is refilled by Math.floor(elapsedMs * (requestsPerMinute /
60000)) whole tokens (the source floors the fractional refill), capped at
burstSize, with lastRefill then set to now; the call returns allowed and
consumes one token exactly when the refilled count is at least 1, and
otherwise denies without decrementing. -/
theorem isAllowed_floor_refill (svc : RateLimitService) (key : String) (now : Nat)
    (st : RateLimitState) (h : List.lookup key svc.states = some st) :
    (svc.isAllowed key now).1
      = decide (1 ≤ min svc.config.burstSize (st.tokens
          + ((⌊((((now : ℤ) - (st.lastRefill : ℤ)) : ℤ) : ℚ)
              * (svc.config.requestsPerMinute / 60000)⌋ : ℤ) : ℚ)))
    ∧ List.lookup key ((svc.isAllowed key now).2).states
      = some ⟨min svc.config.burstSize (st.tokens
            + ((⌊((((now : ℤ) - (st.lastRefill : ℤ)) : ℤ) : ℚ)
                * (svc.config.requestsPerMinute / 60000)⌋ : ℤ) : ℚ))
          - (if 1 ≤ min svc.config.burstSize (st.tokens
            + ((⌊((((now : ℤ) - (st.lastRefill : ℤ)) : ℤ) : ℚ)
                * (svc.config.requestsPerMinute / 60000)⌋ : ℤ) : ℚ)) then 1 else 0), now⟩ := by
  unfold RateLimitService.isAllowed
  simp only [h]
  by_cases h1 : 1 ≤ min svc.config.burstSize (st.tokens
      + ((⌊((((now : ℤ) - (st.lastRefill : ℤ)) : ℤ) : ℚ)
          * (svc.config.requestsPerMinute / 60000)⌋ : ℤ) : ℚ))
  · rw [if_pos h1, if_pos h1]
    exact ⟨(decide_eq_true h1).symm, by rw [lookup_setMapEntry]⟩
  · rw [if_neg h1, if_neg h1]
    exact ⟨(decide_eq_false h1).symm, by rw [lookup_setMapEntry, sub_zero]⟩

/-- Modelled from the claim wording of C3 (spec section 4.4, continuous
fractional-token refill): identical to isAllowed except that the refill adds
exactly elapsedMs * (requestsPerMinute / 60000) tokens, without flooring. -/
def isAllowedFractionalRefill (svc : RateLimitService) (key : String) (now : Nat) :
    Bool × RateLimitService :=
  let st0 := match List.lookup key svc.states with
    | some st => st
    | none => ⟨svc.config.burstSize, now⟩
  let elapsed : ℤ := (now : ℤ) - (st0.lastRefill : ℤ)
  let tokensToAdd : ℚ := (elapsed : ℚ) * (svc.config.requestsPerMinute / 60000)
  let tokens1 := min svc.config.burstSize (st0.tokens + tokensToAdd)
  if 1 ≤ tokens1 then
    (true, { svc with states := setMapEntry svc.states key ⟨tokens1 - 1, now⟩ })
  else
    (false, { svc with states := setMapEntry svc.states key ⟨tokens1, now⟩ })

/-- Claim C3, counterexample: with requestsPerMinute 60, burstSize 5, a key
holding 4 tokens last refilled at 0 and a call at elapsed 500 ms, the source
adds Math.floor(500 * 0.001) = 0 tokens and leaves 3 after the consume,
whereas the claimed exact refill of 0.5 fractional tokens would leave 3.5:
the refill is floored, not continuous. -/
theorem isAllowed_refill_is_floored :
    (List.lookup "default"
        (((⟨⟨60, 5⟩, [("default", ⟨4, 0⟩)]⟩ : RateLimitService).isAllowed "default" 500).2).states).map
        RateLimitState.tokens = some 3
    ∧ (List.lookup "default"
        ((isAllowedFractionalRefill ⟨⟨60, 5⟩, [("default", ⟨4, 0⟩)]⟩ "default" 500).2).states).map
        RateLimitState.tokens = some (7 / 2)
    ∧ ((3 : ℚ) ≠ 7 / 2) := by
  refine ⟨?_, ?_, by norm_num⟩
  · unfold RateLimitService.isAllowed
    rw [show List.lookup "default"
        ((⟨⟨60, 5⟩, [("default", ⟨4, 0⟩)]⟩ : RateLimitService)).states = some ⟨4, 0⟩ from rfl]
    simp only []
    rw [if_pos (by norm_num), lookup_setMapEntry]
    norm_num
  · unfold isAllowedFractionalRefill
    rw [show List.lookup "default"
        ((⟨⟨60, 5⟩, [("default", ⟨4, 0⟩)]⟩ : RateLimitService)).states = some ⟨4, 0⟩ from rfl]
    simp only []
    rw [if_pos (by norm_num), lookup_setMapEntry]
    norm_num

/-- Witness for the amended claim C3: at the same concrete state the call is
admitted and the stored count drops from 4 to 3, lastRefill moving to 500. -/
theorem isAllowed_floor_refill_witness :
    ((⟨⟨60, 5⟩, [("default", ⟨4, 0⟩)]⟩ : RateLimitService).isAllowed "default" 500).1 = true
    ∧ List.lookup "default"
        (((⟨⟨60, 5⟩, [("default", ⟨4, 0⟩)]⟩ : RateLimitService).isAllowed "default" 500).2).states
      = some ⟨3, 500⟩ := by
  have h := isAllowed_floor_refill ⟨⟨60, 5⟩, [("default", ⟨4, 0⟩)]⟩ "default" 500 ⟨4, 0⟩ rfl
  constructor
  · rw [h.1]
    norm_num
  · rw [h.2]
    norm_num

/-! ### The read-only query guard (src/neo4j.ts)

The write-keyword patterns are word-boundary regular expressions over ASCII
letters tested case-insensitively; they are modelled by structural scanners
over the lowercased character list of the query.  A character class \w is
[A-Za-z0-9_]; \b holds where a word character meets a non-word character or
an end of the input.
-/

/-- The regex word-character class \w. -/
def jsWordChar (c : Char) : Bool := c.isAlpha || c.isDigit || c = '_'

/-- Match a literal character sequence at the head of the input, returning
the remaining input on success. -/
def matchSeq : List Char → List Char → Option (List Char)
  | [], rest => some rest
  | _ :: _, [] => none
  | w :: ws, c :: cs => if c = w then matchSeq ws cs else none

/-- A word boundary against the preceding character (none at the start of
the input). -/
def boundaryOk : Option Char → Bool
  | none => true
  | some c => !jsWordChar c

/-- A word boundary against the upcoming input. -/
def afterBoundary : List Char → Bool
  | [] => true
  | c :: _ => !jsWordChar c

/-- The pattern w with a word boundary on each side, anchored at the head of
the input, the preceding character given. -/
def headWord (w : List Char) (prev : Option Char) (cs : List Char) : Bool :=
  boundaryOk prev &&
    (match matchSeq w cs with
     | some rest => afterBoundary rest
     | none => false)

/-- The regex test of a word pattern with boundaries: the anchored match at
any position of the input. -/
def scanWord (w : List Char) (prev : Option Char) : List Char → Bool
  | [] => headWord w prev []
  | c :: cs => headWord w prev (c :: cs) || scanWord w (some c) cs

/-- LOAD, one or more whitespace characters, CSV, with outer boundaries,
anchored at the head of the input. -/
def headLoadCsv (prev : Option Char) (cs : List Char) : Bool :=
  boundaryOk prev &&
    (match matchSeq ['l', 'o', 'a', 'd'] cs with
     | some rest =>
        decide (0 < (rest.takeWhile Char.isWhitespace).length) &&
          (match matchSeq ['c', 's', 'v'] (rest.dropWhile Char.isWhitespace) with
           | some rest2 => afterBoundary rest2
           | none => false)
     | none => false)

/-- The regex test of the LOAD CSV pattern. -/
def scanLoadCsv (prev : Option Char) : List Char → Bool
  | [] => headLoadCsv prev []
  | c :: cs => headLoadCsv prev (c :: cs) || scanLoadCsv (some c) cs

/-- Zero or more characters other than a closing parenthesis, then the word
w with boundaries; prev is the character preceding the current position. -/
def gapWord (w : List Char) (prev : Char) : List Char → Bool
  | [] => headWord w (some prev) []
  | c :: cs => headWord w (some prev) (c :: cs) || (!(c = ')') && gapWord w c cs)

/-- CALL with boundaries, then [^)]*, then the word w with boundaries,
anchored at the head of the input. -/
def headCallThen (w : List Char) (prev : Option Char) (cs : List Char) : Bool :=
  boundaryOk prev &&
    (match matchSeq ['c', 'a', 'l', 'l'] cs with
     | some rest => afterBoundary rest && gapWord w 'l' rest
     | none => false)

/-- The regex test of the CALL patterns. -/
def scanCallThen (w : List Char) (prev : Option Char) : List Char → Bool
  | [] => headCallThen w prev []
  | c :: cs => headCallThen w prev (c :: cs) || scanCallThen w (some c) cs

/-- One blocked pattern: its regex source text and its test on the
lowercased query. -/
structure WritePattern where
  source : String
  test : List Char → Bool

/-- WRITE_KEYWORDS from the source, in order. -/
def WRITE_KEYWORDS : List WritePattern :=
  [⟨"\\bCREATE\\b", scanWord "create".data none⟩,
   ⟨"\\bMERGE\\b", scanWord "merge".data none⟩,
   ⟨"\\bSET\\b", scanWord "set".data none⟩,
   ⟨"\\bDELETE\\b", scanWord "delete".data none⟩,
   ⟨"\\bREMOVE\\b", scanWord "remove".data none⟩,
   ⟨"\\bDROP\\b", scanWord "drop".data none⟩,
   ⟨"\\bDETACH\\b", scanWord "detach".data none⟩,
   ⟨"\\bLOAD\\s+CSV\\b", scanLoadCsv none⟩,
   ⟨"\\bCALL\\b[^)]*\\bdbms\\b", scanCallThen "dbms".data none⟩,
   ⟨"\\bCALL\\b[^)]*\\bapoc\\.trigger\\b", scanCallThen "apoc.trigger".data none⟩]

/-- validateReadOnly scans the patterns in order; the first match is the
blocked pattern whose source is put in the thrown message. -/
def findBlockedPattern (cypher : String) : Option String :=
  (WRITE_KEYWORDS.find? (fun p => p.test (cypher.data.map Char.toLower))).map
    WritePattern.source

/-- Errors surfaced by executeReadQuery. -/
inductive QueryError where
  | notConfigured (message : String)
  | validationFailed (message : String)
  | backend (message : String)
deriving DecidableEq

def MAX_ROWS : Nat := 1000

def MAX_RETRY_ATTEMPTS : Nat := 3

def INITIAL_RETRY_DELAY_MS : Nat := 1000

/-- isRetryableError from the source: the lowercased message contains one of
the connection-class substrings. -/
def containsSeq (needle : List Char) : List Char → Bool
  | [] => (matchSeq needle []).isSome
  | c :: cs => (matchSeq needle (c :: cs)).isSome || containsSeq needle cs

def isRetryableError (msg : String) : Bool :=
  let m := msg.data.map Char.toLower
  containsSeq "connection".data m || containsSeq "socket".data m
    || containsSeq "timeout".data m || containsSeq "unavailable".data m
    || containsSeq "econnrefused".data m || containsSeq "econnreset".data m

/-- The observable outcome of one executeReadQuery call: the result, how
many sessions were acquired from the pool (one per execution attempt), and
the backoff sleeps taken between attempts. -/
structure GuardRun (σ : Type) where
  result : Except QueryError (List σ)
  sessionsAcquired : Nat
  delays : List Nat

/-- The retry loop of executeReadQuery.  Each iteration acquires a session
and runs the query (the backend behaviour at attempt i is outcome i); a
successful result is truncated to MAX_ROWS rows and normalized row-wise; a
non-retryable error is rethrown at once; a retryable error is remembered,
and followed by a backoff sleep of INITIAL_RETRY_DELAY_MS * 2 ^ attempt
when further attempts remain.  When the attempts are exhausted the last
error is thrown. -/
def guardLoop {ρ σ : Type} (outcome : Nat → Except String (List ρ)) (normalize : ρ → σ) :
    Nat → Nat → Nat → List Nat → Option String → GuardRun σ
  | 0, _, sessions, delays, lastError =>
    ⟨.error (.backend (lastError.getD "Query failed after retries")), sessions, delays⟩
  | remaining + 1, attempt, sessions, delays, _lastError =>
    match outcome attempt with
    | .ok records => ⟨.ok ((records.take MAX_ROWS).map normalize), sessions + 1, delays⟩
    | .error e =>
      if isRetryableError e then
        if attempt < MAX_RETRY_ATTEMPTS - 1 then
          guardLoop outcome normalize remaining (attempt + 1) (sessions + 1)
            (delays ++ [INITIAL_RETRY_DELAY_MS * 2 ^ attempt]) (some e)
        else
          guardLoop outcome normalize remaining (attempt + 1) (sessions + 1) delays (some e)
      else
        ⟨.error (.backend e), sessions + 1, delays⟩

/-- executeReadQuery from the source: a missing driver (NEO4J_URI unset and
no driver created) throws the configuration error before anything else; then
validateReadOnly throws on a blocked pattern before any session is acquired;
otherwise the retry loop runs. -/
def executeReadQuery {ρ σ : Type} (driverConfigured : Bool) (cypher : String)
    (outcome : Nat → Except String (List ρ)) (normalize : ρ → σ) : GuardRun σ :=
  if driverConfigured then
    match findBlockedPattern cypher with
    | some src =>
      ⟨.error (.validationFailed ("Write operations are not allowed. Blocked pattern: " ++ src)),
        0, []⟩
    | none => guardLoop outcome normalize MAX_RETRY_ATTEMPTS 0 0 [] none
  else
    ⟨.error (.notConfigured
        "Graph database not configured. Set NEO4J_URI to enable graph queries."), 0, []⟩

/-- Claim C4: a query matching any of the fixed case-insensitive
mutating-operation patterns makes executeReadQuery fail immediately with the
validation error naming the offending pattern, with zero sessions acquired
(no backend round-trip, whatever the backend would do) and no retry or
backoff sleep. -/
theorem guard_blocks_mutating_query {ρ σ : Type} (cypher : String)
    (outcome : Nat → Except String (List ρ)) (normalize : ρ → σ) (src : String)
    (h : findBlockedPattern cypher = some src) :
    executeReadQuery true cypher outcome normalize
      = ⟨.error (.validationFailed
          ("Write operations are not allowed. Blocked pattern: " ++ src)), 0, []⟩ := by
  unfold executeReadQuery
  rw [if_pos rfl, h]

/-- Witness for claim C4: the query MATCH (n) DELETE n is blocked by the
DELETE pattern with zero sessions acquired, whatever the backend reports. -/
theorem guard_blocks_mutating_query_witness :
    executeReadQuery true "MATCH (n) DELETE n"
        (fun _ => (Except.error "boom" : Except String (List Unit))) (id : Unit → Unit)
      = ⟨.error (.validationFailed
          "Write operations are not allowed. Blocked pattern: \\bDELETE\\b"), 0, []⟩ := by
  rw [guard_blocks_mutating_query "MATCH (n) DELETE n"
    (fun _ => (Except.error "boom" : Except String (List Unit))) (id : Unit → Unit)
    "\\bDELETE\\b" (by decide)]
  rfl

/-- Claim C5: connection-class execution errors (messages containing one of
the connection-class substrings, per isRetryableError) are retried up to 3
total attempts with backoff sleeps of 1000 ms then 2000 ms, and exhaustion
surfaces the last observed error; any non-retryable error propagates at
once, after a single further session and with no further backoff. -/
theorem guard_retry_policy {ρ σ : Type} (cypher : String) (normalize : ρ → σ)
    (hval : findBlockedPattern cypher = none) (e1 e2 e3 f : String)
    (h1 : isRetryableError e1 = true) (h2 : isRetryableError e2 = true)
    (h3 : isRetryableError e3 = true) (hf : isRetryableError f = false) :
    executeReadQuery true cypher
        (fun i => (Except.error ([e1, e2, e3].getD i "") : Except String (List ρ))) normalize
      = ⟨.error (.backend e3), 3, [1000, 2000]⟩
    ∧ executeReadQuery true cypher
        (fun _ => (Except.error f : Except String (List ρ))) normalize
      = ⟨.error (.backend f), 1, []⟩
    ∧ executeReadQuery true cypher
        (fun i => (Except.error (if i = 0 then e1 else f) : Except String (List ρ))) normalize
      = ⟨.error (.backend f), 2, [1000]⟩ := by
  refine ⟨?_, ?_, ?_⟩ <;>
    simp [executeReadQuery, hval, guardLoop, h1, h2, h3, hf,
      MAX_RETRY_ATTEMPTS, INITIAL_RETRY_DELAY_MS]

/-- Witness for claim C5: three connection-reset failures exhaust the three
attempts with sleeps 1000 and 2000 ms and surface the last error; a syntax
error propagates after one attempt. -/
theorem guard_retry_policy_witness :
    executeReadQuery true "MATCH (n) RETURN n"
        (fun i => (Except.error (["connection reset", "connection reset",
          "connection reset"].getD i "") : Except String (List Unit))) (id : Unit → Unit)
      = ⟨.error (.backend "connection reset"), 3, [1000, 2000]⟩
    ∧ executeReadQuery true "MATCH (n) RETURN n"
        (fun _ => (Except.error "Invalid syntax near RETURN" : Except String (List Unit)))
        (id : Unit → Unit)
      = ⟨.error (.backend "Invalid syntax near RETURN"), 1, []⟩ := by
  have h := guard_retry_policy "MATCH (n) RETURN n" (id : Unit → Unit) (by decide)
    "connection reset" "connection reset" "connection reset" "Invalid syntax near RETURN"
    (by decide) (by decide) (by decide) (by decide)
  exact ⟨h.1, h.2.1⟩

/-- Claim C10: with the graph backend unconfigured, executeReadQuery throws
the configuration error before the read-only validation runs, with no
session acquired and no retry, for every query; in particular a mutating
query such as MATCH (n) DELETE n (which the DELETE pattern would block)
yields the configuration error rather than a validation error. -/
theorem guard_unconfigured_before_validation {ρ σ : Type} (cypher : String)
    (outcome : Nat → Except String (List ρ)) (normalize : ρ → σ) :
    executeReadQuery false cypher outcome normalize
      = ⟨.error (.notConfigured
          "Graph database not configured. Set NEO4J_URI to enable graph queries."), 0, []⟩
    ∧ findBlockedPattern "MATCH (n) DELETE n" = some "\\bDELETE\\b" :=
  ⟨rfl, by decide⟩

end SemanticScholarMcp
